import Mathlib

/-!
# Verification of the pomsky / rulex front-end compiler

Shallow embedding of the rulex-lib AST and code generator and of the
pomsky-lib diagnostic engine and tokenizer, with theorems settling the
specification claims about them.

Rust machine integers are modelled as `Nat` with explicit bounds where
overflow matters; fallible code returns `Option` or `Except`; the mutable
output buffer (`&mut String`) is modelled by explicit state passing
(the function receives the buffer and returns the new buffer).
-/

namespace Pomsky

/-! ## rulex-lib data model

The `CharClass` type lives in `char_class.rs`, which is not among the given
sources; it is modelled from the spec. -/

/-- Modelled from the spec: a char class is "built from items (codepoint,
range, named class, nested union)"; `char_class.rs` is not among the given
sources. -/
inductive CharItem where
  | codepoint (c : Nat)
  | range (lo hi : Nat)
  | named (name : String)
deriving DecidableEq

/-- Modelled from the spec: "`CharClass` — set of code points or named
classes, possibly negated, built from items"; `char_class.rs` is not among
the given sources. The set is the list of items, plus a negation flag. -/
structure CharClass where
  items : List CharItem
  negated : Bool
deriving DecidableEq

/-- Modelled from the spec: `CharClass::default()`, the empty non-negated
class (`Default` derive in `char_class.rs`). -/
def CharClass.default : CharClass := ⟨[], false⟩

/-- Modelled from the spec: `CharClass::is_negated` reads the negation flag. -/
def CharClass.is_negated (c : CharClass) : Bool := c.negated

/-- Modelled from the spec: `CharClass::add_all` adds all items of the other
class, forming the union of the two item sets. -/
def CharClass.add_all (c other : CharClass) : CharClass :=
  ⟨c.items ++ other.items, c.negated⟩

/-- `Boundary` from `boundary.rs` (not among the given sources); the four
variants are listed in the spec: `Start, End, Word, NotWord`. -/
inductive Boundary where
  | start
  | «end»
  | word
  | notWord
deriving DecidableEq

/-- `Greedy` from `repetition.rs`. -/
inductive Greedy where
  | yes
  | no
deriving DecidableEq

/-- `RepetitionKind` from `repetition.rs`: lower bound and optional upper
bound (`None` means infinity). The Rust fields are `u32`. -/
structure RepetitionKind where
  lower_bound : Nat
  upper_bound : Option Nat
deriving DecidableEq

/-- `RepetitionError` from `repetition.rs`. -/
inductive RepetitionError where
  | notAscending
deriving DecidableEq

/-- `TryFrom<(u32, Option<u32>)> for RepetitionKind` (`repetition.rs`):
fails with `NotAscending` when `lower_bound > upper_bound.unwrap_or(u32::MAX)`.
`u32::MAX = 2^32 - 1`. -/
def RepetitionKind.try_from : Nat × Option Nat → Except RepetitionError RepetitionKind :=
  fun (lower_bound, upper_bound) =>
    if lower_bound > upper_bound.getD (2 ^ 32 - 1) then
      .error .notAscending
    else
      .ok ⟨lower_bound, upper_bound⟩

/-- `Rulex` from `rule.rs`. The payload structs `Group`, `Alternation` and
`Repetition` are inlined into the constructors (their single wrapper structs
carry exactly these fields). `Group` (`group.rs`) is not among the given
sources; its children list is kept and its `needs_parens_before_repetition`
result is modelled from the spec by the field `needsParens` ("true for ...
certain groups; false for ... already-parenthesized forms"). -/
inductive Rulex where
  | literal (s : String)
  | charClass (c : CharClass)
  | group (rules : List Rulex) (capturing : Bool) (needsParens : Bool)
  | alternation (rules : List Rulex)
  | repetition (rule : Rulex) (kind : RepetitionKind) (greedy : Greedy)
  | boundary (b : Boundary)

/-- `Rulex::needs_parens_before_repetition` (`rule.rs` lines 52-60). -/
def Rulex.needs_parens_before_repetition : Rulex → Bool
  | .literal _ | .alternation _ => true
  | .group _ _ needsParens => needsParens
  | .charClass _ => false
  | .repetition _ _ _ => false
  | .boundary _ => false

/-- `Alternation::new_rulex` (`alternation.rs` lines 13-31), the guard:
the rule is a `CharClass` that is not negated. -/
def isNonNegatedCharClass : Rulex → Bool
  | .charClass c => !c.is_negated
  | _ => false

/-- The `for rule in rules { ... cc.add_all(c) ... }` loop of
`Alternation::new_rulex`; the non-`CharClass` arm is `unreachable!()` under
the guard and is modelled as a no-op. -/
def collectClasses : List Rulex → CharClass → CharClass
  | [], cc => cc
  | .charClass c :: rest, cc => collectClasses rest (cc.add_all c)
  | _ :: rest, cc => collectClasses rest cc

/-- `Alternation::new_rulex` (`alternation.rs` lines 13-31). -/
def Alternation.new_rulex (rules : List Rulex) : Rulex :=
  if rules.all isNonNegatedCharClass then
    Rulex.charClass (collectClasses rules CharClass.default)
  else
    Rulex.alternation rules

/-! ## rulex-lib code generation -/

/-- Modelled from the spec: "Literals emitted with regex metacharacter
escaping applied" (`literal.rs` is not among the given sources). -/
def isRegexMetachar (c : Char) : Bool :=
  c ∈ ['\\', '^', '$', '.', '|', '?', '*', '+', '(', ')', '[', ']', '{', '}']

/-- Modelled from the spec: escaped literal emission (`literal.rs` is not
among the given sources). -/
def compile_literal (s : String) : String :=
  String.mk (s.toList.flatMap fun c => if isRegexMetachar c then ['\\', c] else [c])

/-- Modelled from the spec: one char-class item rendered inside brackets
(`char_class.rs` is not among the given sources; the exact rendering is
irrelevant to the claims). -/
def CharItem.render : CharItem → String
  | .codepoint c => String.mk [Char.ofNat c]
  | .range lo hi => String.mk [Char.ofNat lo, '-', Char.ofNat hi]
  | .named n => n

/-- Modelled from the spec: "CharClass. Compile to `[...]` or `[^...]`"
(`char_class.rs` is not among the given sources). -/
def CharClass.render (c : CharClass) : String :=
  (if c.negated then "[^" else "[") ++ String.join (c.items.map CharItem.render) ++ "]"

/-- Modelled from the spec: "`Start → ^` ..., `End → $`, `Word → \b`,
`NotWord → \B`" (`boundary.rs` is not among the given sources). -/
def Boundary.render : Boundary → String
  | .start => "^"
  | .«end» => "$"
  | .word => "\\b"
  | .notWord => "\\B"

/-- The quantifier emission of `Repetition::comp` (`repetition.rs` lines
35-72): the `match self.kind` arms in source order. The Rust guard arm
`{n,n} if lower_bound == upper_bound` and the two arms after it are encoded
as an `if` chain inside the final `Some` pattern, preserving arm order. -/
def RepetitionKind.quantifier : RepetitionKind → String
  | ⟨0, some 1⟩ => "?"
  | ⟨0, none⟩ => "*"
  | ⟨1, none⟩ => "+"
  | ⟨lower_bound, none⟩ => "\x7b" ++ toString lower_bound ++ ",\x7d"
  | ⟨lower_bound, some upper_bound⟩ =>
    if lower_bound = upper_bound then
      "\x7b" ++ toString lower_bound ++ "\x7d"
    else if lower_bound = 0 then
      "\x7b," ++ toString upper_bound ++ "\x7d"
    else
      "\x7b" ++ toString lower_bound ++ "," ++ toString upper_bound ++ "\x7d"

mutual

/-- `Compile::comp` dispatch for `Rulex` (`rule.rs` lines 77-93) together
with `Repetition::comp` (`repetition.rs` lines 22-79) in the `repetition`
arm. The `&mut String` buffer is passed in and the new buffer returned;
`CompileResult` is modelled by `Option` (no error is possible in the
modelled fragment, but the signature is kept). `CompileOptions` and
`CompileState` do not influence the modelled fragments and are omitted. -/
def Rulex.comp : Rulex → String → Option String
  | .literal l, buf => some (buf ++ compile_literal l)
  | .charClass c, buf => some (buf ++ c.render)
  | .group rules capturing _, buf =>
    (compSeq rules (buf ++ (if capturing then "(" else "(?:"))).map (· ++ ")")
  | .alternation rules, buf => Alternation.comp rules buf
  | .repetition rule kind greedy, buf => Repetition.comp rule kind greedy buf
  | .boundary b, buf => some (buf ++ b.render)

/-- Modelled from the spec: a `Group`'s children are compiled in sequence
(`group.rs` is not among the given sources). -/
def compSeq : List Rulex → String → Option String
  | [], buf => some buf
  | r :: rest, buf => do
    let buf' ← r.comp buf
    compSeq rest buf'

/-- `Alternation::comp` (`alternation.rs` lines 45-61): each child is
compiled and followed by `|`; afterwards, if the rule list is non-empty, the
trailing `|` is popped. -/
def Alternation.comp (rules : List Rulex) (buf : String) : Option String := do
  let buf' ← altLoop rules buf
  pure (if rules.isEmpty then buf' else buf'.dropRight 1)

/-- The `for rule in &self.rules` loop of `Alternation::comp`. -/
def altLoop : List Rulex → String → Option String
  | [], buf => some buf
  | r :: rest, buf => do
    let buf' ← r.comp buf
    altLoop rest (buf' ++ "|")

/-- `Repetition::comp` (`repetition.rs` lines 22-79): compile the child,
wrapped via `Parens` iff `needs_parens_before_repetition`, then push the
canonical quantifier, then `?` if lazy. -/
def Repetition.comp (rule : Rulex) (kind : RepetitionKind) (greedy : Greedy)
    (buf : String) : Option String := do
  let buf' ←
    if rule.needs_parens_before_repetition then
      Parens.comp rule buf
    else
      rule.comp buf
  let buf'' := buf' ++ kind.quantifier
  pure (if greedy = Greedy.no then buf'' ++ "?" else buf'')

/-- Modelled from the spec: `Parens` (`compile.rs`, not among the given
sources) wraps the rule's output in a non-capturing group `(?:...)`. -/
def Parens.comp (rule : Rulex) (buf : String) : Option String :=
  (rule.comp (buf ++ "(?:")).map (· ++ ")")

end

/-! ## Spans, flavors and the Grapheme rule

`span.rs` and `options.rs` are not among the given sources; `Span` and
`RegexFlavor` are modelled from the spec. -/

/-- Modelled from the spec: "A half-open byte range `[start, end)` into the
original source, or the distinguished *empty* span. Supports `range()`
(returns `None` for empty)." -/
inductive Span where
  | empty
  | range (start stop : Nat)
deriving DecidableEq

/-- `Span::range`: `None` for the empty span. -/
def Span.toRange : Span → Option (Nat × Nat)
  | .empty => none
  | .range s e => some (s, e)

/-- `Span::range_unchecked`: the bounds without the emptiness check; the
modelled call sites only apply it to non-empty spans, the empty case is
given the junk value `(0, 0)`. -/
def Span.rangeUnchecked : Span → Nat × Nat
  | .empty => (0, 0)
  | .range s e => (s, e)

/-- Modelled from the spec: "`flavor ∈ {Pcre, JavaScript, Ruby, Python,
Java, DotNet, Rust, …}`" (`options.rs` is not among the given sources). -/
inductive RegexFlavor where
  | pcre
  | python
  | java
  | javascript
  | dotNet
  | ruby
  | rust
deriving DecidableEq

/-- `CompileOptions` (`options.rs`, not among the given sources): only the
`flavor` field influences the modelled fragments. -/
structure CompileOptions where
  flavor : RegexFlavor

/-- `Feature` from `error.rs` (not among the given sources): only the
`Grapheme` feature is needed by the claims. -/
inductive Feature where
  | grapheme
deriving DecidableEq

/-- `CompileErrorKind` (`error.rs`, not among the given sources): only the
`Unsupported(feature, flavor)` variant named by the spec is modelled. -/
inductive CompileErrorKind where
  | unsupported (feature : Feature) (flavor : RegexFlavor)
deriving DecidableEq

/-- `CompileError { kind, span }`; `CompileErrorKind::at(span)` builds it. -/
structure CompileError where
  kind : CompileErrorKind
  span : Span
deriving DecidableEq

/-- The `Grapheme` rule (`grapheme.rs`). -/
structure Grapheme where
  span : Span

/-- `Grapheme::comp` (`grapheme.rs` lines 19-34). The `&mut String` buffer
appears as input and output, so that what the failing path appends (nothing)
is observable; the `CompileResult` is the second component. -/
def Grapheme.comp (g : Grapheme) (options : CompileOptions) (buf : String) :
    String × Option CompileError :=
  if options.flavor = RegexFlavor.javascript then
    (buf, some ⟨.unsupported .grapheme options.flavor, g.span⟩)
  else
    (buf ++ "\\X", none)

/-! ## Byte-position string model

Rust `&str` values are modelled as `List Char`; spans and offsets count
UTF-8 bytes, via `Char.utf8Size`. -/

/-- The UTF-8 byte length of a character list (`str::len`). -/
def byteLen (cs : List Char) : Nat := (cs.map Char.utf8Size).sum

/-- The prefix of `cs` occupying the first `n` bytes (`&s[..n]`). Rust
panics when `n` is not a character boundary; here the partial character is
not taken. All modelled call sites use boundary offsets. -/
def takeBytes : Nat → List Char → List Char
  | _, [] => []
  | n, c :: cs => if c.utf8Size ≤ n then c :: takeBytes (n - c.utf8Size) cs else []

/-- The suffix of `cs` after the first `n` bytes (`&s[n..]`). Rust panics
when `n` is not a character boundary; here the partial character is kept.
All modelled call sites use boundary offsets. -/
def dropBytes : Nat → List Char → List Char
  | _, [] => []
  | n, c :: cs => if n = 0 then c :: cs
      else if c.utf8Size ≤ n then dropBytes (n - c.utf8Size) cs else c :: cs

/-- The byte index of the first occurrence of `t` (`str::find(char)`). -/
def findCharByte (t : Char) : List Char → Option Nat
  | [] => none
  | c :: cs => if c = t then some 0 else (findCharByte t cs).map (· + c.utf8Size)

/-- `str::trim_matches(char-set)`: strip characters satisfying `p` from both
ends. -/
def trimMatchesSet (p : Char → Bool) (cs : List Char) : List Char :=
  ((cs.dropWhile p).reverse.dropWhile p).reverse

/-- `str::trim`: strip Unicode whitespace from both ends. -/
def trimChars (cs : List Char) : List Char := trimMatchesSet Char.isWhitespace cs

/-- `str::trim_start_matches(string-pattern)`: repeatedly strip the prefix
`p`. -/
def trimStartMatchesStr (p : List Char) (cs : List Char) : List Char :=
  if h : p ≠ [] ∧ p.isPrefixOf cs then trimStartMatchesStr p (cs.drop p.length)
  else cs
termination_by cs.length
decreasing_by
  rcases h with ⟨hp, hpre⟩
  have hle : p.length ≤ cs.length :=
    (List.isPrefixOf_iff_prefix.mp hpre).length_le
  have hpos : 0 < p.length := List.length_pos.mpr hp
  simp only [List.length_drop]
  omega

/-- `char::is_ascii_hexdigit`. -/
def isAsciiHexDigit (c : Char) : Bool :=
  c.isDigit || ('a' ≤ c && c ≤ 'f') || ('A' ≤ c && c ≤ 'F')

/-! ## pomsky-lib error taxonomy

The error enums live in `pomsky-lib/src/error` and `src/parse` files that
are not among the given sources; their variants are modelled from the spec
(§4.3, §6) exactly as matched by `diagnostics.rs`. -/

/-- The lexer hint catalog (`ParseErrorMsg`), the closed set listed in the
spec (§6). -/
inductive ParseErrorMsg where
  | caret
  | caretInGroup
  | dollar
  | groupNonCapturing
  | groupLookahead
  | groupLookaheadNeg
  | groupLookbehind
  | groupLookbehindNeg
  | groupComment
  | groupNamedCapture
  | groupPcreBackreference
  | groupAtomic
  | groupConditional
  | groupBranchReset
  | groupSubroutineCall
  | groupOther
  | unclosedString
  | backslash
  | backslashU4
  | backslashX2
  | backslashUnicode
  | backslashGK
  | backslashProperty
deriving DecidableEq

/-- `CharClassError` sub-kinds named by the spec; the payloads of
`DescendingRange` are matched with `(..)` in `diagnostics.rs` and modelled
as the two offending code points. -/
inductive CharClassError where
  | unknownNamedClass (name : String) (similar : Option String)
  | descendingRange (lo hi : Nat)
  | empty
deriving DecidableEq

/-- `CharStringError` from the spec. -/
inductive CharStringError where
  | tooManyCodePoints
deriving DecidableEq

/-- pomsky-lib's `RepetitionError` as matched in `diagnostics.rs`
(distinct from the rulex-lib enum of the same name). -/
inductive DiagRepetitionError where
  | questionMarkAfterRepetition
deriving DecidableEq

mutual

/-- `ParseErrorKind`: the kinds listed in the spec (§4.3) plus `Multiple`.
The spec's list is open ("error kinds include"); kinds not named there fall
into the `_ => None` help arm of `from_parse_error` and are represented by
the `other` constructor. -/
inductive ParseErrorKind where
  | lexErrorWithMessage (msg : ParseErrorMsg)
  | rangeIsNotIncreasing
  | dot
  | charClass (e : CharClassError)
  | charString (e : CharStringError)
  | keywordAfterLet (keyword : String)
  | unallowedDoubleNot
  | letBindingExists
  | repetition (e : DiagRepetitionError)
  | invalidEscapeInStringAt (offset : Nat)
  | recursionLimit
  | multiple (errors : List ParseError)
  | other

/-- `ParseError { kind, span }`. -/
inductive ParseError where
  | mk (kind : ParseErrorKind) (span : Span)

end

/-- The `kind` field of a `ParseError`. -/
def ParseError.kind : ParseError → ParseErrorKind
  | .mk k _ => k

/-- The `span` field of a `ParseError`. -/
def ParseError.span : ParseError → Span
  | .mk _ sp => sp

/-- Modelled from the spec: "Every kind implements a stable, human-readable
message" (`Display` lives in error files not among the given sources); no
claim depends on the wording, so the message is modelled as a constant. -/
def ParseErrorKind.toMessage : ParseErrorKind → String := fun _ => ""

/-- `Severity` (`diagnostics.rs` lines 30-36). -/
inductive Severity where
  | error
  | warning
deriving DecidableEq

/-- `Diagnostic` (`diagnostics.rs` lines 13-27). -/
structure Diagnostic where
  severity : Severity
  msg : String
  code : Option String
  source_code : Option (List Char)
  help : Option String
  span : Span

/-! ## Diagnostic help synthesis (`diagnostics.rs` lines 276-413) -/

/-- `get_named_capture_help` (`diagnostics.rs` lines 317-329). -/
def get_named_capture_help (str : List Char) : Option String :=
  let name := trimMatchesSet (fun c => c = '<' || c = '>' || c = '\'')
    ((trimStartMatchesStr "(?".toList str).dropWhile (· = 'P'))
  if name.contains '-' then
    some "Balancing groups are not supported"
  else
    some ("Named capturing groups use the `:name(...)` syntax. Try `:" ++
      String.mk name ++ "(...)` instead")

/-- `get_pcre_backreference_help` (`diagnostics.rs` lines 331-335). -/
def get_pcre_backreference_help (str : List Char) : Option String :=
  let name := (((trimStartMatchesStr "(?P=".toList str).reverse.dropWhile
    (· = ')')).reverse)
  some ("Backreferences use the `::name` syntax. Try `::" ++ String.mk name ++
    "` instead")

/-- `get_backslash_help` (`diagnostics.rs` lines 337-370). The Rust function
asserts that the slice starts with a backslash; lexer-produced slices always
do, and the failing assertion is modelled as no help. -/
def get_backslash_help (str : List Char) : Option String :=
  match str with
  | '\\' :: rest =>
    match rest with
    | 'b' :: _ => some "Replace `\\b` with `%` to match a word boundary"
    | 'B' :: _ => some "Replace `\\B` with `!%` to match a place without a word boundary"
    | 'A' :: _ => some "Replace `\\A` with `Start` to match the start of the string"
    | 'z' :: _ => some "Replace `\\z` with `End` to match the end of the string"
    | 'Z' :: _ => some "\\Z is not supported. Use `End` to match the end of the string.\nNote, however, that `End` doesn't match the position before the final newline."
    | 'N' :: _ => some "Replace `\\N` with `![n]`"
    | 'X' :: _ => some "Replace `\\X` with `Grapheme`"
    | 'R' :: _ => some "Replace `\\R` with `([r] [n] | [v])`"
    | 'D' :: _ => some "Replace `\\D` with `[!d]`"
    | 'W' :: _ => some "Replace `\\W` with `[!w]`"
    | 'S' :: _ => some "Replace `\\S` with `[!s]`"
    | 'V' :: _ => some "Replace `\\V` with `![v]`"
    | 'H' :: _ => some "Replace `\\H` with `![h]`"
    | 'G' :: _ => some "Match attempt anchors are not supported"
    | c :: _ =>
      if c = 'a' || c = 'e' || c = 'f' || c = 'n' || c = 'r' || c = 't' ||
          c = 'h' || c = 'v' || c = 'd' || c = 'w' || c = 's' then
        some ("Replace `\\" ++ String.singleton c ++ "` with `[" ++
          String.singleton c ++ "]`")
      else if c = '0' then
        some "Replace `\\0` with `U+00`"
      else if '1' ≤ c && c ≤ '7' then
        some ("If this is a backreference, replace it with `::" ++
          String.singleton c ++ "`.\nIf this is an octal escape, replace it with `U+0" ++
          String.singleton c ++ "`.")
      else if '1' ≤ c && c ≤ '9' then
        some ("Replace `\\" ++ String.singleton c ++ "` with `::" ++
          String.singleton c ++ "`")
      else none
    | [] => none
  | _ => none

/-- `get_backslash_help_u4` (`diagnostics.rs` lines 372-376): `\uFFFF`. -/
def get_backslash_help_u4 (str : List Char) : Option String :=
  some ("Try `U+" ++ String.mk (dropBytes 2 str) ++ "` instead")

/-- `get_backslash_help_x2` (`diagnostics.rs` lines 378-382): `\xFF`. -/
def get_backslash_help_x2 (str : List Char) : Option String :=
  some ("Try `U+" ++ String.mk (dropBytes 2 str) ++ "` instead")

/-- `get_backslash_help_unicode` (`diagnostics.rs` lines 384-388):
`\u{...}`, `\x{...}`. -/
def get_backslash_help_unicode (str : List Char) : Option String :=
  some ("Try `U+" ++
    String.mk (trimMatchesSet (fun c => c = '{' || c = '}') (dropBytes 2 str)) ++
    "` instead")

/-- `get_backslash_gk_help` (`diagnostics.rs` lines 390-400). -/
def get_backslash_gk_help (str : List Char) : Option String :=
  let name := trimMatchesSet
    (fun c => c = '{' || c = '}' || c = '<' || c = '>' || c = '\'')
    (dropBytes 2 str)
  if name = ['0'] then
    some "Recursion is currently not supported"
  else
    some ("Replace `" ++ String.mk str ++ "` with `::" ++ String.mk name ++ "`")

/-- `get_backslash_property_help` (`diagnostics.rs` lines 402-413). -/
def get_backslash_property_help (str : List Char) : Option String :=
  let is_negative :=
    ("\\P".toList.isPrefixOf str && !("\\P\x7b^".toList.isPrefixOf str)) ||
      "\\p\x7b^".toList.isPrefixOf str
  let name := String.mk
    ((trimMatchesSet (fun c => c = '{' || c = '}' || c = '^')
      (dropBytes 2 str)).map (fun c => if c = '+' || c = '-' then '_' else c))
  if is_negative then
    some ("Replace `" ++ String.mk str ++ "` with `[!" ++ name ++ "]`")
  else
    some ("Replace `" ++ String.mk str ++ "` with `[" ++ name ++ "]`")

/-- `get_parse_error_msg_help` (`diagnostics.rs` lines 276-315). -/
def get_parse_error_msg_help (slice : List Char) (msg : ParseErrorMsg) :
    Option String :=
  match msg with
  | .caret => some "Use `Start` to match the start of the string"
  | .caretInGroup => some "Use `![...]` to negate a character class"
  | .dollar => some "Use `End` to match the end of the string"
  | .groupNonCapturing => some "Non-capturing groups are just parentheses: `(...)`. Capturing groups use the `:(...)` syntax."
  | .groupLookahead => some "Lookahead uses the `>>` syntax. For example, `>> 'bob'` matches if the position is followed by bob."
  | .groupLookaheadNeg => some "Negative lookahead uses the `!>>` syntax. For example, `!>> 'bob'` matches if the position is not followed by bob."
  | .groupLookbehind => some "Lookbehind uses the `<<` syntax. For example, `<< 'bob'` matches if the position is preceded with bob."
  | .groupLookbehindNeg => some "Negative lookbehind uses the `!<<` syntax. For example, `!<< 'bob'` matches if the position is not preceded with bob."
  | .groupComment => some "Comments start with `#` and go until the end of the line."
  | .groupNamedCapture => get_named_capture_help slice
  | .groupPcreBackreference => get_pcre_backreference_help slice
  | .backslash => get_backslash_help slice
  | .backslashU4 => get_backslash_help_u4 slice
  | .backslashX2 => get_backslash_help_x2 slice
  | .backslashUnicode => get_backslash_help_unicode slice
  | .backslashGK => get_backslash_gk_help slice
  | .backslashProperty => get_backslash_property_help slice
  | .groupAtomic | .groupConditional | .groupBranchReset
  | .groupSubroutineCall | .groupOther | .unclosedString => none

/-! ## `Diagnostic::from_parse_error` (`diagnostics.rs` lines 81-165) -/

/-- The source slice covered by an error span: the Rust
`&source_code[error.span.range().unwrap_or(0..source_code.len())]`. -/
def sliceOf (sp : Span) (src : List Char) : List Char :=
  let range := sp.toRange.getD (0, byteLen src)
  takeBytes (range.2 - range.1) (dropBytes range.1 src)

/-- `Diagnostic::from_parse_error` (`diagnostics.rs` lines 81-153). A
panicking `.unwrap()` of `slice.find('-')` is modelled as `none`; Nat
subtraction stands for the `usize` subtraction in the span-narrowing branch
(no call with `span_start + offset = 0` avoids underflow, see the C6
theorem's hypothesis). -/
def fromParseError (e : ParseError) (src : List Char) : Option Diagnostic :=
  let range := e.span.toRange.getD (0, byteLen src)
  let slice := sliceOf e.span src
  let span := Span.range range.1 range.2
  let helpAndSpan : Option (Option String × Span) :=
    match e.kind with
    | .lexErrorWithMessage msg => some (get_parse_error_msg_help slice msg, span)
    | .rangeIsNotIncreasing =>
      match findCharByte '-' slice with
      | none => none
      | some dash_pos =>
        let part1 := takeBytes dash_pos slice
        let part2 := (dropBytes dash_pos slice).dropWhile (· = '-')
        some (some ("Switch the numbers: " ++ String.mk (trimChars part2) ++
          "-" ++ String.mk (trimChars part1)), span)
    | .dot => some (some "The dot is deprecated. Use `Codepoint` to match any code point, or `![n]` to exclude line breaks", span)
    | .charClass (.unknownNamedClass _ (some similar)) =>
      some (some ("Perhaps you meant `" ++ similar ++ "`"), span)
    | .charClass (.descendingRange _ _) =>
      match findCharByte '-' slice with
      | none => none
      | some dash_pos =>
        let part1 := takeBytes dash_pos slice
        let part2 := (dropBytes dash_pos slice).dropWhile (· = '-')
        some (some ("Switch the characters: " ++ String.mk (trimChars part2) ++
          "-" ++ String.mk (trimChars part1)), span)
    | .charClass .empty =>
      some (some "You can use `![s !s]` to match nothing, and `C` to match anything", span)
    | .charString .tooManyCodePoints =>
      if (trimMatchesSet (fun c => c = '"' || c = '\'') slice).all Char.isDigit then
        some (some "Try a `range` expression instead:\nhttps://pomsky-lang.org/docs/language-tour/ranges/", span)
      else
        some (none, span)
    | .keywordAfterLet _ => some (some "Use a different variable name", span)
    | .unallowedDoubleNot => some (some "Remove 2 exclamation marks", span)
    | .letBindingExists => some (some "Use a different name", span)
    | .repetition .questionMarkAfterRepetition =>
      some (some "If you meant to make the repetition lazy, append the `lazy` keyword instead.\nIf this is intentional, consider adding parentheses around the inner repetition.", span)
    | .invalidEscapeInStringAt offset =>
      let span_start := span.rangeUnchecked.1
      some (none, Span.range (span_start + offset - 1) (span_start + offset + 1))
    | .recursionLimit =>
      some (some "Try a less nested expression. It helps to refactor it using variables:\nhttps://pomsky-lang.org/docs/language-tour/variables/", span)
    | _ => some (none, span)
  helpAndSpan.map fun (help, span) =>
    { severity := .error
      code := none
      msg := e.kind.toMessage
      source_code := some src
      help := help
      span := span }

mutual

/-- `Diagnostic::from_parse_errors` (`diagnostics.rs` lines 157-165):
recursively flattens `ParseErrorKind::Multiple`. -/
def fromParseErrors (e : ParseError) (src : List Char) :
    Option (List Diagnostic) :=
  match e with
  | .mk (.multiple errors) _ => (mapFromParseErrors errors src).map List.flatten
  | _ => (fromParseError e src).map fun d => [d]

/-- The `flat_map` over the members of a `Multiple`, with panics
propagated. -/
def mapFromParseErrors (errors : List ParseError) (src : List Char) :
    Option (List (List Diagnostic)) :=
  match errors with
  | [] => some []
  | e :: rest => do
    let ds ← fromParseErrors e src
    let dss ← mapFromParseErrors rest src
    pure (ds :: dss)

end

/-- The canonical quantifier as the specification states it, applying the
first matching rule in this order: `{0,1}` emits `?`, `{0,inf}` emits `*`,
`{1,inf}` emits `+`, `{n,inf}` emits `{n,}`, `{n,n}` emits `{n}`, `{0,m}`
emits `{,m}`, and any other `{n,m}` emits `{n,m}`. Written from the spec's
words, to be compared with `RepetitionKind.quantifier`, which embeds the
source. -/
def claimQuantifier (lower : Nat) (upper : Option Nat) : String :=
  if lower = 0 ∧ upper = some 1 then "?"
  else if lower = 0 ∧ upper = none then "*"
  else if lower = 1 ∧ upper = none then "+"
  else if upper = none then "\x7b" ++ toString lower ++ ",\x7d"
  else if some lower = upper then "\x7b" ++ toString lower ++ "\x7d"
  else if lower = 0 then "\x7b," ++ toString (upper.getD 0) ++ "\x7d"
  else "\x7b" ++ toString lower ++ "," ++ toString (upper.getD 0) ++ "\x7d"

/-- The union of the item lists of all char classes in a rule list, the
spec's `CC1 ∪ CC2 ∪ …` for a list of char classes. -/
def unionItems (rules : List Rulex) : List CharItem :=
  rules.flatMap fun r =>
    match r with
    | .charClass c => c.items
    | _ => []

/-! ## The lexer (`pomsky-lib/src/parse/tokenize.rs`)

`micro_regex.rs` is not among the given sources; the matcher combinators
used by `tokenize.rs` are modelled from the spec (§4.1): each matcher,
given an input, either fails or returns the consumed byte length. -/

/-- `Token` (`parse/token.rs`, not among the given sources): the kinds used
by `tokenize.rs`, as listed in the spec (§3). -/
inductive Token where
  | bStart
  | bEnd
  | lookAhead
  | lookBehind
  | backref
  | bWord
  | star
  | plus
  | questionMark
  | pipe
  | colon
  | openParen
  | closeParen
  | openBrace
  | closeBrace
  | comma
  | «not»
  | openBracket
  | dash
  | closeBracket
  | dot
  | semicolon
  | equals
  | codePoint
  | number
  | identifier
  | string
  | errorMsg (msg : ParseErrorMsg)
  | error
deriving DecidableEq

/-- Modelled from the spec: a literal string matcher, consuming the prefix
byte-for-byte. -/
def litM (lit : List Char) (cs : List Char) : Option Nat :=
  if lit.isPrefixOf cs then some (byteLen lit) else none

/-- Modelled from the spec: `CharIs(fn)` matches one `char` satisfying the
predicate. -/
def charM (p : Char → Bool) : List Char → Option Nat
  | [] => none
  | c :: _ => if p c then some c.utf8Size else none

/-- The byte length of the longest prefix of characters satisfying `p`
(greedy Kleene star over `CharIs`). -/
def many0Len (p : Char → Bool) : List Char → Nat
  | [] => 0
  | c :: cs => if p c then c.utf8Size + many0Len p cs else 0

/-- Modelled from the spec: `Many0` never fails. -/
def many0M (p : Char → Bool) (cs : List Char) : Option Nat :=
  some (many0Len p cs)

/-- Modelled from the spec: `Many1` requires at least one match. -/
def many1M (p : Char → Bool) : List Char → Option Nat
  | [] => none
  | c :: cs => if p c then some (c.utf8Size + many0Len p cs) else none

/-- Modelled from the spec: `Sequence` matches the sub-matchers in order,
the length is the sum. -/
def seqM (m1 m2 : List Char → Option Nat) (cs : List Char) : Option Nat := do
  let a ← m1 cs
  let b ← m2 (dropBytes a cs)
  pure (a + b)

/-- Modelled from the spec: `Alternatives` tries each matcher in order,
first success wins. -/
def altM (ms : List (List Char → Option Nat)) (cs : List Char) : Option Nat :=
  match ms with
  | [] => none
  | m :: rest =>
    match m cs with
    | some n => some n
    | none => altM rest cs

/-- Modelled from the spec: `Context(ctx)` attaches a constant value; a list
of context-carrying alternatives is run in order, first success wins. -/
def runAlts (alts : List ((List Char → Option Nat) × ParseErrorMsg))
    (cs : List Char) : Option (Nat × ParseErrorMsg) :=
  match alts with
  | [] => none
  | (m, msg) :: rest =>
    match m cs with
    | some n => some (n, msg)
    | none => runAlts rest cs

/-- Rust `char::is_alphabetic` (Unicode `Alphabetic`); approximated by the
ASCII check — the C9 claim is insensitive to the exact predicate. -/
def rustIsAlphabetic (c : Char) : Bool := c.isAlpha

/-- Rust `char::is_alphanumeric` (Unicode); approximated by the ASCII
check — the C9 claim is insensitive to the exact predicate. -/
def rustIsAlphanumeric (c : Char) : Bool := c.isAlphanum

/-- The `("U+", Many1(CharIs(is_ascii_hexdigit)))` matcher of `tokenize`
(`tokenize.rs` lines 90-92). -/
def codePointLen : List Char → Option Nat :=
  seqM (litM ['U', '+']) (many1M isAsciiHexDigit)

/-- The `Many1(CharIs(is_ascii_digit))` matcher (`tokenize.rs` lines 94-96). -/
def numberLen : List Char → Option Nat :=
  many1M Char.isDigit

/-- The identifier matcher (`tokenize.rs` lines 98-101). -/
def identLen : List Char → Option Nat :=
  seqM (charM (fun c => rustIsAlphabetic c || c = '_'))
    (many0M (fun c => rustIsAlphanumeric c || c = '_'))

/-- The `ident` of `parse_special_group` (`tokenize.rs` line 171). -/
def identG : List Char → Option Nat :=
  many1M (fun c => c.isAlphanum || c = '-' || c = '+')

/-- The 14 `after_open` alternatives of `parse_special_group`
(`tokenize.rs` lines 173-188), in source order. -/
def groupAlts : List ((List Char → Option Nat) × ParseErrorMsg) :=
  [(litM [':'], .groupNonCapturing),
    (litM ['='], .groupLookahead),
    (litM ['!'], .groupLookaheadNeg),
    (litM ['>'], .groupAtomic),
    (litM ['('], .groupConditional),
    (litM ['|'], .groupBranchReset),
    (litM ['<', '='], .groupLookbehind),
    (litM ['<', '!'], .groupLookbehindNeg),
    (seqM (seqM (altM [litM ['P', '<'], litM ['<']]) identG) (litM ['>']),
      .groupNamedCapture),
    (seqM (seqM (litM ['\'']) identG) (litM ['\'']), .groupNamedCapture),
    (seqM (seqM (litM ['P', '=']) identG) (litM [')']), .groupPcreBackreference),
    (altM [litM ['P', '>'], litM ['&']], .groupSubroutineCall),
    (seqM (seqM (litM ['#']) (many0M (fun c => c ≠ ')'))) (litM [')']),
      .groupComment),
    (litM [], .groupOther)]

/-- `parse_special_group` (`tokenize.rs` lines 170-191): `"(?"` followed by
the first matching alternative. -/
def parse_special_group (cs : List Char) : Option (Nat × ParseErrorMsg) :=
  match litM ['(', '?'] cs with
  | none => none
  | some l0 => (runAlts groupAlts (dropBytes l0 cs)).map fun (n, msg) => (l0 + n, msg)

/-- The `ident` of `parse_backslash` (`tokenize.rs` line 146). -/
def identB : List Char → Option Nat :=
  many1M (fun c => c.isAlphanum || c = '-' || c = '+' || c = '_')

/-- The `after_gk` alternatives (`tokenize.rs` lines 148-153). -/
def gkAlts : List (List Char → Option Nat) :=
  [seqM (seqM (litM ['<']) identB) (litM ['>']),
    seqM (seqM (litM ['{']) identB) (litM ['}']),
    seqM (seqM (litM ['\'']) identB) (litM ['\'']),
    seqM (altM [litM ['-'], litM ['+'], litM []]) (charM Char.isDigit)]

/-- The `after_p` alternatives (`tokenize.rs` lines 155-156). -/
def pAlts : List (List Char → Option Nat) :=
  [charM (fun c => c.isAlphanum),
    seqM (seqM (litM ['{']) identB) (litM ['}']),
    seqM (seqM (litM ['{', '^']) identB) (litM ['}'])]

/-- The `after_backslash` alternatives (`tokenize.rs` lines 158-165), in
source order. -/
def bsAlts : List ((List Char → Option Nat) × ParseErrorMsg) :=
  [(seqM (seqM (altM [litM ['u', '{'], litM ['x', '{']])
      (many1M isAsciiHexDigit)) (litM ['}']), .backslashUnicode),
    (seqM (seqM (seqM (seqM (litM ['u']) (charM isAsciiHexDigit))
      (charM isAsciiHexDigit)) (charM isAsciiHexDigit))
      (charM isAsciiHexDigit), .backslashU4),
    (seqM (seqM (litM ['x']) (charM isAsciiHexDigit))
      (charM isAsciiHexDigit), .backslashX2),
    (seqM (altM [litM ['k'], litM ['g']]) (altM gkAlts), .backslashGK),
    (seqM (altM [litM ['p'], litM ['P']]) (altM pAlts), .backslashProperty),
    (charM (fun _ => true), .backslash)]

/-- `parse_backslash` (`tokenize.rs` lines 143-168): a backslash followed by
the first matching alternative. -/
def parse_backslash (cs : List Char) : Option (Nat × ParseErrorMsg) :=
  match litM ['\\'] cs with
  | none => none
  | some l0 => (runAlts bsAlts (dropBytes l0 cs)).map fun (n, msg) => (l0 + n, msg)

/-- `find_unescaped_quote` (`tokenize.rs` lines 124-141): the byte index of
the first `"` not preceded by a backslash; a backslash consumes the
following character. The Rust loop jumps to the first `\` or `"` via
`find`; scanning the intervening characters one by one is the same
function. -/
def find_unescaped_quote : List Char → Option Nat
  | [] => none
  | '"' :: _ => some 0
  | '\\' :: [] => none
  | '\\' :: c2 :: rest => (find_unescaped_quote rest).map (· + 1 + c2.utf8Size)
  | c :: cs => (find_unescaped_quote cs).map (· + c.utf8Size)

/-- The token dispatch of `tokenize` (`tokenize.rs` lines 50-111): the
`consume_chain!` cascade on a non-empty input, returning the consumed byte
length and the token. The `[]` case is unreachable (the loop checks
`chars().next()` first). -/
def tokStep : List Char → Nat × Token
  | [] => (0, Token.error)
  | c :: rest =>
    if ['<', '%'].isPrefixOf (c :: rest) then (2, .bStart)
    else if ['%', '>'].isPrefixOf (c :: rest) then (2, .bEnd)
    else if ['>', '>'].isPrefixOf (c :: rest) then (2, .lookAhead)
    else if ['<', '<'].isPrefixOf (c :: rest) then (2, .lookBehind)
    else if [':', ':'].isPrefixOf (c :: rest) then (2, .backref)
    else if c = '%' then (1, .bWord)
    else if c = '*' then (1, .star)
    else if c = '+' then (1, .plus)
    else if c = '?' then (1, .questionMark)
    else if c = '|' then (1, .pipe)
    else if c = ':' then (1, .colon)
    else if c = ')' then (1, .closeParen)
    else if c = '{' then (1, .openBrace)
    else if c = '}' then (1, .closeBrace)
    else if c = ',' then (1, .comma)
    else if c = '!' then (1, .not)
    else if c = '[' then (1, .openBracket)
    else if c = '-' then (1, .dash)
    else if c = ']' then (1, .closeBracket)
    else if c = '.' then (1, .dot)
    else if c = ';' then (1, .semicolon)
    else if c = '=' then (1, .equals)
    else if c = '\'' then
      match findCharByte '\'' rest with
      | some len_inner => (len_inner + 2, .string)
      | none => (byteLen (c :: rest), .errorMsg .unclosedString)
    else if c = '"' then
      match find_unescaped_quote rest with
      | some len_inner => (len_inner + 2, .string)
      | none => (byteLen (c :: rest), .errorMsg .unclosedString)
    else
      match codePointLen (c :: rest) with
      | some len => (len, .codePoint)
      | none =>
        match numberLen (c :: rest) with
        | some len => (len, .number)
        | none =>
          match identLen (c :: rest) with
          | some len => (len, .identifier)
          | none =>
            if c = '^' then (1, .errorMsg .caret)
            else if c = '$' then (1, .errorMsg .dollar)
            else
              match parse_special_group (c :: rest) with
              | some (len, err) => (len, .errorMsg err)
              | none =>
                if c = '(' then (1, .openParen)
                else
                  match parse_backslash (c :: rest) with
                  | some (len, err) => (len, .errorMsg err)
                  | none => (c.utf8Size, .error)

/-- The comment-skipping `while` loop of `tokenize` (`tokenize.rs` lines
45-47): while the input starts with `#`, drop until the newline and trim
leading whitespace. -/
def skipComments (cs : List Char) : List Char :=
  if h : cs.head? = some '#' then
    skipComments ((cs.dropWhile (· ≠ '\n')).dropWhile Char.isWhitespace)
  else cs
termination_by cs.length
decreasing_by
  rcases cs with _ | ⟨c, rest⟩
  · simp at h
  · have hc : c = '#' := by simpa using h
    subst hc
    have h1 : (('#' :: rest).dropWhile (· ≠ '\n')) = rest.dropWhile (· ≠ '\n') := by
      simp [List.dropWhile_cons]
    have h2 : (rest.dropWhile (· ≠ '\n')).length ≤ rest.length :=
      (List.dropWhile_sublist _).length_le
    have h3 : ((('#' :: rest).dropWhile (· ≠ '\n')).dropWhile
        Char.isWhitespace).length ≤ (('#' :: rest).dropWhile (· ≠ '\n')).length :=
      (List.dropWhile_sublist _).length_le
    rw [h1] at h3
    rw [h1]
    simp only [List.length_cons]
    omega

/-- The whitespace-and-comment skipping step of the `tokenize` loop
(`tokenize.rs` lines 44-47): `trim_start`, then the `#`-comment loop. -/
def skipWs (cs : List Char) : List Char :=
  skipComments (cs.dropWhile Char.isWhitespace)

/-- The number of bytes skipped as whitespace or comments at the head of
the input: the Rust `input_len - input.len()` (`tokenize.rs` line 48). -/
def skippedBytes (cs : List Char) : Nat := byteLen cs - byteLen (skipWs cs)

/-- The `tokenize` loop (`tokenize.rs` lines 42-119) as a recursion on the
remaining input, with the running byte `offset`; each iteration consumes at
least one character (see `tokStep_consumes`), so the `fuel` argument — which
only makes the loop structurally recursive — is never exhausted when it
exceeds the input length. -/
def tokenizeLoop : Nat → List Char → Nat → List (Token × Nat × Nat)
  | 0, _, _ => []
  | fuel + 1, input, offset =>
    match skipWs input with
    | [] => []
    | c :: rest =>
      let offset' := offset + (byteLen input - byteLen (skipWs input))
      let (len, token) := tokStep (c :: rest)
      (token, offset', offset' + len) ::
        tokenizeLoop fuel (dropBytes len (c :: rest)) (offset' + len)

/-- `tokenize` (`tokenize.rs` lines 38-122); spans are the `(start, stop)`
byte pairs. -/
def tokenize (cs : List Char) : List (Token × Nat × Nat) :=
  tokenizeLoop (cs.length + 1) cs 0

/-- `cs` decomposes as a non-degenved prefix of `n` bytes followed by the
rest: the consumed-bytes witness for a matcher result. -/
def Consumes (cs : List Char) (n : Nat) : Prop :=
  ∃ pre suf, cs = pre ++ suf ∧ byteLen pre = n

/-- A matcher only reports lengths that split its input at a character
boundary. -/
def MC (m : List Char → Option Nat) : Prop :=
  ∀ cs n, m cs = some n → Consumes cs n

/-- The span bookkeeping of the `tokenize` loop, starting at byte offset
`off` with remaining input `cs`: every token starts where the previous one
ended plus the skipped whitespace/comment bytes, and covers exactly the
bytes its consumption removed from the input. -/
inductive SpanChain : Nat → List Char → List (Token × Nat × Nat) → Prop where
  | nil : ∀ off cs, skipWs cs = [] → SpanChain off cs []
  | cons : ∀ off cs tok len ts pre suf,
      skipWs cs = pre ++ suf →
      pre ≠ [] →
      byteLen pre = len →
      tokStep (skipWs cs) = (len, tok) →
      SpanChain (off + skippedBytes cs + len) suf ts →
      SpanChain off cs
        ((tok, off + skippedBytes cs, off + skippedBytes cs + len) :: ts)

/-- The negation condition exactly as the claim words it: "the slice is of
the form `\P{...}` or `\p{^...}`". -/
def claimPropertyNegated (slice : List Char) : Bool :=
  ("\\P\x7b".toList.isPrefixOf slice && slice.getLast? == some '}') ||
    "\\p\x7b^".toList.isPrefixOf slice

/-- The suggested class name as the claim words it: the property name (the
slice after the first two bytes, braces and caret trimmed) with every `+`
and `-` character replaced by `_`. -/
def normalizedPropertyName (slice : List Char) : String :=
  String.mk ((trimMatchesSet (fun c => c = '{' || c = '}' || c = '^')
    (dropBytes 2 slice)).map (fun c => if c = '+' || c = '-' then '_' else c))

/-- The amended negation condition: the slice starts with `\P` but not with
`\P{^`, or starts with `\p{^` (so `\P{^...}`, a double negation, suggests
the non-negated form, and brace-less `\PL` suggests the negated form). -/
def amendedPropertyNegated (slice : List Char) : Bool :=
  ("\\P".toList.isPrefixOf slice && !("\\P\x7b^".toList.isPrefixOf slice)) ||
    "\\p\x7b^".toList.isPrefixOf slice

/-! ## Theorems: rulex-lib -/

theorem quantifier_eq_claim (k : RepetitionKind) :
    k.quantifier = claimQuantifier k.lower_bound k.upper_bound := by
  obtain ⟨l, u⟩ := k
  cases u with
  | none =>
    rcases l with _ | _ | l <;>
      simp [RepetitionKind.quantifier, claimQuantifier]
  | some m =>
    rcases l with _ | _ | l <;> rcases m with _ | _ | m <;>
      simp [RepetitionKind.quantifier, claimQuantifier]

theorem comp_repetition_split (rule : Rulex) (kind : RepetitionKind)
    (greedy : Greedy) (buf : String) :
    Rulex.comp (.repetition rule kind greedy) buf =
      (if rule.needs_parens_before_repetition then Parens.comp rule buf
        else rule.comp buf).map
        (fun b => b ++ kind.quantifier ++ (if greedy = Greedy.no then "?" else "")) := by
  rw [Rulex.comp, Repetition.comp]
  by_cases hp : rule.needs_parens_before_repetition = true
  · rw [if_pos hp, if_pos hp]
    cases h : Parens.comp rule buf with
    | none => rfl
    | some b => cases greedy <;> simp
  · rw [if_neg hp, if_neg hp]
    cases h : rule.comp buf with
    | none => rfl
    | some b => cases greedy <;> simp

/-- **C1.** For every Repetition node, `Repetition::comp` emits after its
child's output the canonical quantifier determined by
`(lower_bound, upper_bound)`, applying the first matching rule in this
order: `{0,1}` emits `?`, `{0,inf}` emits `*`, `{1,inf}` emits `+`,
`{n,inf}` emits `{n,}`, `{n,n}` emits `{n}`, `{0,m}` emits `{,m}`, and any
other `{n,m}` emits `{n,m}`; and if `greedy = No`, a single `?` is appended
after the quantifier. -/
theorem repetition_comp_canonical_quantifier (rule : Rulex)
    (kind : RepetitionKind) (greedy : Greedy) (buf : String) :
    Rulex.comp (.repetition rule kind greedy) buf =
      (if rule.needs_parens_before_repetition then Parens.comp rule buf
        else rule.comp buf).map
        (fun b => b ++ claimQuantifier kind.lower_bound kind.upper_bound ++
          (if greedy = Greedy.no then "?" else "")) := by
  rw [comp_repetition_split, quantifier_eq_claim]

/-- **C2.** When compiling a Repetition, the child is wrapped in a
non-capturing group (`Parens`) iff `needs_parens_before_repetition` returns
true for it; `needs_parens_before_repetition` returns true for every
`Literal` node and every `Alternation` node, and false for every `CharClass`
node and every `Boundary` node. -/
theorem repetition_wraps_iff_needs_parens :
    (∀ s, (Rulex.literal s).needs_parens_before_repetition = true) ∧
    (∀ rs, (Rulex.alternation rs).needs_parens_before_repetition = true) ∧
    (∀ c, (Rulex.charClass c).needs_parens_before_repetition = false) ∧
    (∀ b, (Rulex.boundary b).needs_parens_before_repetition = false) ∧
    (∀ rule kind greedy buf,
      Rulex.comp (.repetition rule kind greedy) buf =
        (if rule.needs_parens_before_repetition then Parens.comp rule buf
          else rule.comp buf).map
          (fun b => b ++ kind.quantifier ++
            (if greedy = Greedy.no then "?" else ""))) :=
  ⟨fun _ => rfl, fun _ => rfl, fun _ => rfl, fun _ => rfl, comp_repetition_split⟩

theorem collectClasses_eq_union (rules : List Rulex) (cc : CharClass) :
    collectClasses rules cc = ⟨cc.items ++ unionItems rules, cc.negated⟩ := by
  induction rules generalizing cc with
  | nil => simp [collectClasses, unionItems]
  | cons r rest ih =>
    cases r <;>
      simp [collectClasses, unionItems, ih, CharClass.add_all, List.flatMap_cons]

/-- **C3.** For every list of rules in which every element is a non-negated
`CharClass`, `Alternation::new_rulex` returns a single `Rulex::CharClass`
equal to the union of all the classes, not a `Rulex::Alternation`; for any
list containing an element that is not a non-negated `CharClass`, it
returns a `Rulex::Alternation` holding exactly that list. -/
theorem new_rulex_collapses_char_classes :
    (∀ rules : List Rulex, (∀ r ∈ rules, isNonNegatedCharClass r = true) →
      Alternation.new_rulex rules = .charClass ⟨unionItems rules, false⟩) ∧
    (∀ (rules : List Rulex) (r : Rulex), r ∈ rules →
      isNonNegatedCharClass r = false →
      Alternation.new_rulex rules = .alternation rules) := by
  constructor
  · intro rules h
    rw [Alternation.new_rulex, if_pos (List.all_eq_true.mpr h),
      collectClasses_eq_union]
    rfl
  · intro rules r hr hfalse
    rw [Alternation.new_rulex, if_neg]
    intro hall
    rw [List.all_eq_true] at hall
    exact absurd (hall r hr) (by simp [hfalse])

/-- Witness for C3: a two-class alternation collapses to the union class; a
list containing a literal stays an alternation. -/
theorem new_rulex_collapses_char_classes_witness :
    Alternation.new_rulex
        [.charClass ⟨[.codepoint 97], false⟩, .charClass ⟨[.codepoint 98], false⟩] =
      .charClass ⟨[.codepoint 97, .codepoint 98], false⟩ ∧
    Alternation.new_rulex [.literal "a"] = .alternation [.literal "a"] :=
  ⟨new_rulex_collapses_char_classes.1 _ (by decide),
    new_rulex_collapses_char_classes.2 _ (.literal "a") (by simp) rfl⟩

/-- **C4.** For all `lower a : u32` and `upper b`,
`RepetitionKind::try_from((a, Some(b)))` returns `Err(NotAscending)` exactly
when `a > b`, and `RepetitionKind::try_from((a, None))` always succeeds; on
success the resulting `RepetitionKind` stores the given bounds unchanged. -/
theorem try_from_not_ascending :
    (∀ a b : Nat, a ≤ b →
      RepetitionKind.try_from (a, some b) = .ok ⟨a, some b⟩) ∧
    (∀ a b : Nat, b < a →
      RepetitionKind.try_from (a, some b) = .error .notAscending) ∧
    (∀ a : Nat, a < 2 ^ 32 →
      RepetitionKind.try_from (a, none) = .ok ⟨a, none⟩) := by
  refine ⟨fun a b h => ?_, fun a b h => ?_, fun a h => ?_⟩ <;>
    simp [RepetitionKind.try_from, Option.getD] <;> omega

/-- Witness for C4 at concrete bounds. -/
theorem try_from_not_ascending_witness :
    RepetitionKind.try_from (2, some 5) = .ok ⟨2, some 5⟩ ∧
    RepetitionKind.try_from (5, some 2) = .error .notAscending ∧
    RepetitionKind.try_from (7, none) = .ok ⟨7, none⟩ :=
  ⟨try_from_not_ascending.1 2 5 (by decide),
    try_from_not_ascending.2.1 5 2 (by decide),
    try_from_not_ascending.2.2 7 (by norm_num)⟩

/-! ## Theorems: Grapheme -/

/-- **C5.** `Grapheme::comp` fails with
`CompileErrorKind::Unsupported(Feature::Grapheme, flavor)` carrying the
Grapheme's span exactly when the selected flavor is JavaScript, and in that
case appends nothing to the output buffer; for every other flavor it
succeeds and appends exactly `\X`. -/
theorem grapheme_comp_javascript_gate :
    (∀ (g : Grapheme) (options : CompileOptions) (buf : String),
      options.flavor = RegexFlavor.javascript →
      Grapheme.comp g options buf =
        (buf, some ⟨.unsupported .grapheme options.flavor, g.span⟩)) ∧
    (∀ (g : Grapheme) (options : CompileOptions) (buf : String),
      options.flavor ≠ RegexFlavor.javascript →
      Grapheme.comp g options buf = (buf ++ "\\X", none)) := by
  constructor <;> intro g options buf h <;> simp [Grapheme.comp, h]

/-- Witness for C5: JavaScript fails without touching the buffer; PCRE
emits `\X`. -/
theorem grapheme_comp_javascript_gate_witness :
    Grapheme.comp ⟨.range 0 8⟩ ⟨.javascript⟩ "ab" =
      ("ab", some ⟨.unsupported .grapheme .javascript, .range 0 8⟩) ∧
    Grapheme.comp ⟨.range 0 8⟩ ⟨.pcre⟩ "ab" = ("ab\\X", none) :=
  ⟨grapheme_comp_javascript_gate.1 ⟨.range 0 8⟩ ⟨.javascript⟩ "ab" rfl,
    grapheme_comp_javascript_gate.2 ⟨.range 0 8⟩ ⟨.pcre⟩ "ab" (by decide)⟩

/-! ## Theorems: diagnostics -/

/-- **C6.** For every `ParseError` whose kind is
`InvalidEscapeInStringAt(k)` and whose (non-empty) span starts at byte `s`,
`Diagnostic::from_parse_error` produces a `Diagnostic` whose span is exactly
the half-open byte range `[s+k-1, s+k+1)` and whose help field is `None`.
The hypothesis `1 ≤ s + k` is the `usize` no-underflow condition of
`span_start + offset - 1`. -/
theorem invalid_escape_span_narrowing (s e k : Nat) (src : List Char)
    (h : 1 ≤ s + k) :
    fromParseError (.mk (.invalidEscapeInStringAt k) (.range s e)) src =
      some { severity := .error
             msg := ParseErrorKind.toMessage (.invalidEscapeInStringAt k)
             code := none
             source_code := some src
             help := none
             span := Span.range (s + k - 1) (s + k + 1) } := by
  simp [fromParseError, ParseError.kind, ParseError.span, Span.toRange,
    Span.rangeUnchecked]

/-- Witness for C6: span `[5, 9)`, offset 2 narrows to `[6, 8)`. -/
theorem invalid_escape_span_narrowing_witness :
    fromParseError (.mk (.invalidEscapeInStringAt 2) (.range 5 9))
        "abcdefghij".toList =
      some { severity := .error
             msg := ""
             code := none
             source_code := some "abcdefghij".toList
             help := none
             span := Span.range 6 8 } :=
  invalid_escape_span_narrowing 5 9 2 "abcdefghij".toList (by norm_num)

theorem mapFromParseErrors_spec (src : List Char) :
    ∀ (xs : List ParseError) (dss : List (List Diagnostic)),
      mapFromParseErrors xs src = some dss →
      dss.length = xs.length ∧
        ∀ p ∈ xs.zip dss, fromParseErrors p.1 src = some p.2 := by
  intro xs
  induction xs with
  | nil =>
    intro dss h
    rw [mapFromParseErrors] at h
    cases h
    simp
  | cons e rest ih =>
    intro dss h
    rw [mapFromParseErrors] at h
    cases hE : fromParseErrors e src with
    | none => rw [hE] at h; cases h
    | some ds =>
      rw [hE] at h
      cases hR : mapFromParseErrors rest src with
      | none => rw [hR] at h; cases h
      | some dss' =>
        rw [hR] at h
        cases h
        obtain ⟨hlen, hmem⟩ := ih dss' hR
        refine ⟨by simpa using hlen, ?_⟩
        intro p hp
        rcases List.mem_cons.mp (by simpa using hp) with hhd | htl
        · subst hhd; exact hE
        · exact hmem p htl

theorem fromParseErrors_not_multiple (k : ParseErrorKind) (sp : Span)
    (src : List Char) (hk : ∀ ys, k ≠ .multiple ys) :
    fromParseErrors (.mk k sp) src =
      (fromParseError (.mk k sp) src).map fun d => [d] := by
  cases k
  case multiple ys => exact absurd rfl (hk ys)
  all_goals rfl

/-- **C7.** `Diagnostic::from_parse_errors` recursively flattens
`ParseErrorKind::Multiple`: the number of diagnostics produced for an error
with kind `Multiple(xs)` equals the sum over `x` in `xs` of the number of
diagnostics produced for `x`, and every error whose kind is not `Multiple`
produces exactly one diagnostic. -/
theorem diagnostics_flatten_count :
    (∀ (xs : List ParseError) (sp : Span) (src : List Char)
        (ds : List Diagnostic),
      fromParseErrors (.mk (.multiple xs) sp) src = some ds →
      ∃ dss : List (List Diagnostic),
        mapFromParseErrors xs src = some dss ∧
        dss.length = xs.length ∧
        (∀ p ∈ xs.zip dss, fromParseErrors p.1 src = some p.2) ∧
        ds.length = (dss.map List.length).sum) ∧
    (∀ (k : ParseErrorKind) (sp : Span) (src : List Char)
        (ds : List Diagnostic),
      (∀ ys, k ≠ .multiple ys) →
      fromParseErrors (.mk k sp) src = some ds → ds.length = 1) := by
  constructor
  · intro xs sp src ds h
    rw [fromParseErrors] at h
    cases hM : mapFromParseErrors xs src with
    | none => rw [hM] at h; cases h
    | some dss =>
      rw [hM] at h
      obtain ⟨hlen, hmem⟩ := mapFromParseErrors_spec src xs dss hM
      cases h
      exact ⟨dss, rfl, hlen, hmem, List.length_flatten dss⟩
  · intro k sp src ds hk h
    rw [fromParseErrors_not_multiple k sp src hk] at h
    rcases Option.map_eq_some'.mp h with ⟨d, -, rfl⟩
    rfl

/-- Witness for C7: a `Multiple` of a plain error and a nested `Multiple`
flattens to two diagnostics, `2 = 1 + 1`. -/
theorem diagnostics_flatten_count_witness :
    ∃ dss : List (List Diagnostic),
      mapFromParseErrors
          [.mk .unallowedDoubleNot (.range 0 0),
            .mk (.multiple [.mk .unallowedDoubleNot (.range 0 0)]) .empty]
          [] = some dss ∧
      dss.length =
        [ParseError.mk .unallowedDoubleNot (.range 0 0),
          .mk (.multiple [.mk .unallowedDoubleNot (.range 0 0)]) .empty].length ∧
      (∀ p ∈ ([ParseError.mk .unallowedDoubleNot (.range 0 0),
          .mk (.multiple [.mk .unallowedDoubleNot (.range 0 0)]) .empty].zip dss),
        fromParseErrors p.1 [] = some p.2) ∧
      ([{ severity := .error, msg := "", code := none, source_code := some [],
          help := some "Remove 2 exclamation marks", span := Span.range 0 0 },
        { severity := .error, msg := "", code := none, source_code := some [],
          help := some "Remove 2 exclamation marks", span := Span.range 0 0 }] :
        List Diagnostic).length = (dss.map List.length).sum :=
  diagnostics_flatten_count.1
    [.mk .unallowedDoubleNot (.range 0 0),
      .mk (.multiple [.mk .unallowedDoubleNot (.range 0 0)]) .empty]
    .empty [] _ rfl

theorem exists_findCharByte {t : Char} :
    ∀ {cs : List Char}, t ∈ cs → ∃ n, findCharByte t cs = some n := by
  intro cs h
  induction cs with
  | nil => cases h
  | cons c rest ih =>
    by_cases hc : c = t
    · exact ⟨0, by simp [findCharByte, hc]⟩
    · rcases List.mem_cons.mp h with h1 | h2
      · exact absurd h1.symm hc
      · obtain ⟨n, hn⟩ := ih h2
        exact ⟨n + c.utf8Size, by simp [findCharByte, hc, hn]⟩

/-- **C10.** `Diagnostic::from_parse_error` on `RangeIsNotIncreasing` or
`CharClass(DescendingRange)` requires that the covered source slice contain
a `-`; under that precondition the `.unwrap()` of `find('-')` cannot fail
and the function is total, returning a help message that swaps the two
parts around the first `-`. -/
theorem dash_swap_help_total (sp : Span) (src : List Char)
    (h : '-' ∈ sliceOf sp src) :
    ∃ d, findCharByte '-' (sliceOf sp src) = some d ∧
      fromParseError (.mk .rangeIsNotIncreasing sp) src =
        some { severity := .error
               msg := ParseErrorKind.toMessage .rangeIsNotIncreasing
               code := none
               source_code := some src
               help := some ("Switch the numbers: " ++
                 String.mk (trimChars
                   ((dropBytes d (sliceOf sp src)).dropWhile (· = '-'))) ++
                 "-" ++ String.mk (trimChars (takeBytes d (sliceOf sp src))))
               span := Span.range (sp.toRange.getD (0, byteLen src)).1
                 (sp.toRange.getD (0, byteLen src)).2 } ∧
      ∀ lo hi, fromParseError (.mk (.charClass (.descendingRange lo hi)) sp) src =
        some { severity := .error
               msg := ParseErrorKind.toMessage (.charClass (.descendingRange lo hi))
               code := none
               source_code := some src
               help := some ("Switch the characters: " ++
                 String.mk (trimChars
                   ((dropBytes d (sliceOf sp src)).dropWhile (· = '-'))) ++
                 "-" ++ String.mk (trimChars (takeBytes d (sliceOf sp src))))
               span := Span.range (sp.toRange.getD (0, byteLen src)).1
                 (sp.toRange.getD (0, byteLen src)).2 } := by
  obtain ⟨d, hd⟩ := exists_findCharByte h
  refine ⟨d, hd, ?_, ?_⟩
  · simp [fromParseError, ParseError.kind, ParseError.span, hd]
  · intro lo hi
    simp [fromParseError, ParseError.kind, ParseError.span, hd]

/-- Witness for C10 on the spec's `[z-a]` example: the slice `z-a` contains
a dash and the help swaps the parts. -/
theorem dash_swap_help_total_witness :
    ∃ d, findCharByte '-' (sliceOf (.range 0 3) "z-a".toList) = some d ∧
      fromParseError (.mk .rangeIsNotIncreasing (.range 0 3)) "z-a".toList =
        some { severity := .error
               msg := ParseErrorKind.toMessage .rangeIsNotIncreasing
               code := none
               source_code := some "z-a".toList
               help := some ("Switch the numbers: " ++
                 String.mk (trimChars
                   ((dropBytes d (sliceOf (.range 0 3) "z-a".toList)).dropWhile
                     (· = '-'))) ++
                 "-" ++
                 String.mk (trimChars (takeBytes d (sliceOf (.range 0 3) "z-a".toList))))
               span := Span.range
                 ((Span.range 0 3).toRange.getD (0, byteLen "z-a".toList)).1
                 ((Span.range 0 3).toRange.getD (0, byteLen "z-a".toList)).2 } ∧
      ∀ lo hi,
        fromParseError (.mk (.charClass (.descendingRange lo hi)) (.range 0 3))
            "z-a".toList =
          some { severity := .error
                 msg := ParseErrorKind.toMessage (.charClass (.descendingRange lo hi))
                 code := none
                 source_code := some "z-a".toList
                 help := some ("Switch the characters: " ++
                   String.mk (trimChars
                     ((dropBytes d (sliceOf (.range 0 3) "z-a".toList)).dropWhile
                       (· = '-'))) ++
                   "-" ++
                   String.mk (trimChars (takeBytes d (sliceOf (.range 0 3) "z-a".toList))))
                 span := Span.range
                   ((Span.range 0 3).toRange.getD (0, byteLen "z-a".toList)).1
                   ((Span.range 0 3).toRange.getD (0, byteLen "z-a".toList)).2 } :=
  dash_swap_help_total (.range 0 3) "z-a".toList (by decide)

/-- **C8 (counterexample).** The claim reads the negated form off every
slice of the form `\P{...}` or `\p{^...}`; but for `\P{^Letter}` — which is
of the form `\P{...}` — the code suggests the non-negated `[Letter]`. -/
theorem backslash_property_claim_counterexample :
    claimPropertyNegated "\\P\x7b^Letter\x7d".toList = true ∧
    get_backslash_property_help "\\P\x7b^Letter\x7d".toList =
      some "Replace `\\P\x7b^Letter\x7d` with `[Letter]`" ∧
    ("Replace `\\P\x7b^Letter\x7d` with `[Letter]`" : String) ≠
      "Replace `\\P\x7b^Letter\x7d` with `[!Letter]`" :=
  ⟨by decide, by decide, by decide⟩

/-- **C8 (amended).** The synthesized help for `BackslashProperty` suggests
the negated class form `[!name]` exactly when the slice starts with `\P`
but not with `\P{^`, or starts with `\p{^` (so the double negation
`\P{^...}` and every other slice suggest `[name]`), where `name` is the
property name with every `+` and `-` replaced by `_`. -/
theorem backslash_property_help_amended (slice : List Char) :
    get_backslash_property_help slice =
      some (if amendedPropertyNegated slice then
        "Replace `" ++ String.mk slice ++ "` with `[!" ++
          normalizedPropertyName slice ++ "]`"
      else
        "Replace `" ++ String.mk slice ++ "` with `[" ++
          normalizedPropertyName slice ++ "]`") := by
  rw [get_backslash_property_help, amendedPropertyNegated, normalizedPropertyName]
  rcases hb : ("\\P".toList.isPrefixOf slice &&
      !("\\P\x7b^".toList.isPrefixOf slice)) ||
      "\\p\x7b^".toList.isPrefixOf slice with _ | _ <;>
    simp [hb]

/-! ## Theorems: the lexer's span bookkeeping (C9) -/

theorem byteLen_append (a b : List Char) :
    byteLen (a ++ b) = byteLen a + byteLen b := by
  simp [byteLen]

theorem byteLen_cons (c : Char) (cs : List Char) :
    byteLen (c :: cs) = c.utf8Size + byteLen cs := by
  simp [byteLen]

theorem byteLen_pos {cs : List Char} (h : cs ≠ []) : 1 ≤ byteLen cs := by
  cases cs with
  | nil => exact absurd rfl h
  | cons c rest =>
    have := Char.utf8Size_pos c
    rw [byteLen_cons]
    omega

theorem byteLen_eq_zero {cs : List Char} (h : byteLen cs = 0) : cs = [] := by
  cases cs with
  | nil => rfl
  | cons c rest =>
    have := Char.utf8Size_pos c
    rw [byteLen_cons] at h
    omega

theorem dropBytes_append_exact : ∀ (p s : List Char),
    dropBytes (byteLen p) (p ++ s) = s := by
  intro p
  induction p with
  | nil =>
    intro s
    cases s with
    | nil => rfl
    | cons c rest => simp [byteLen, dropBytes]
  | cons c p' ih =>
    intro s
    have hpos := Char.utf8Size_pos c
    rw [byteLen_cons, List.cons_append, dropBytes]
    rw [if_neg (by omega)]
    simpa using ih s

theorem consumes_head (c : Char) (rest : List Char) :
    Consumes (c :: rest) c.utf8Size :=
  ⟨[c], rest, rfl, by simp [byteLen]⟩

theorem consumes_all (cs : List Char) : Consumes cs (byteLen cs) :=
  ⟨cs, [], by simp, rfl⟩

theorem consumes_of_isPrefixOf {l cs : List Char} (h : l.isPrefixOf cs = true) :
    Consumes cs (byteLen l) := by
  obtain ⟨t, ht⟩ := List.isPrefixOf_iff_prefix.mp h
  exact ⟨l, t, ht.symm, rfl⟩

theorem litM_eq {l cs : List Char} {n : Nat} (h : litM l cs = some n) :
    n = byteLen l ∧ l.isPrefixOf cs = true := by
  rw [litM] at h
  split at h
  · cases h; exact ⟨rfl, by assumption⟩
  · cases h

theorem mc_litM (l : List Char) : MC (litM l) := by
  intro cs n h
  obtain ⟨rfl, hp⟩ := litM_eq h
  exact consumes_of_isPrefixOf hp

theorem charM_eq {p : Char → Bool} {cs : List Char} {n : Nat}
    (h : charM p cs = some n) :
    ∃ c rest, cs = c :: rest ∧ p c = true ∧ n = c.utf8Size := by
  cases cs with
  | nil => cases h
  | cons c rest =>
    rw [charM] at h
    split at h
    · cases h; exact ⟨c, rest, rfl, by assumption, rfl⟩
    · cases h

theorem mc_charM (p : Char → Bool) : MC (charM p) := by
  intro cs n h
  obtain ⟨c, rest, rfl, -, rfl⟩ := charM_eq h
  exact consumes_head c rest

theorem consumes_many0Len (p : Char → Bool) :
    ∀ cs, Consumes cs (many0Len p cs) := by
  intro cs
  induction cs with
  | nil => exact ⟨[], [], rfl, rfl⟩
  | cons c rest ih =>
    rw [many0Len]
    split
    · obtain ⟨pre, suf, hsplit, hlen⟩ := ih
      exact ⟨c :: pre, suf, by rw [hsplit]; rfl, by rw [byteLen_cons, hlen]⟩
    · exact ⟨[], c :: rest, rfl, rfl⟩

theorem mc_many0M (p : Char → Bool) : MC (many0M p) := by
  intro cs n h
  rw [many0M] at h
  cases h
  exact consumes_many0Len p cs

theorem many1M_eq {p : Char → Bool} {cs : List Char} {n : Nat}
    (h : many1M p cs = some n) :
    ∃ c rest, cs = c :: rest ∧ p c = true ∧ n = c.utf8Size + many0Len p rest := by
  cases cs with
  | nil => cases h
  | cons c rest =>
    rw [many1M] at h
    split at h
    · cases h; exact ⟨c, rest, rfl, by assumption, rfl⟩
    · cases h

theorem mc_many1M (p : Char → Bool) : MC (many1M p) := by
  intro cs n h
  obtain ⟨c, rest, rfl, -, rfl⟩ := many1M_eq h
  obtain ⟨pre, suf, hsplit, hlen⟩ := consumes_many0Len p rest
  exact ⟨c :: pre, suf, by rw [hsplit]; rfl, by rw [byteLen_cons, hlen]⟩

theorem seqM_eq {m1 m2 : List Char → Option Nat} {cs : List Char} {n : Nat}
    (h : seqM m1 m2 cs = some n) :
    ∃ a b, m1 cs = some a ∧ m2 (dropBytes a cs) = some b ∧ n = a + b := by
  rw [seqM] at h
  cases h1 : m1 cs with
  | none => rw [h1] at h; cases h
  | some a =>
    rw [h1] at h
    cases h2 : m2 (dropBytes a cs) with
    | none => simp [h2] at h
    | some b =>
      simp [h2] at h
      exact ⟨a, b, rfl, h2, h.symm⟩

theorem mc_seqM {m1 m2 : List Char → Option Nat} (h1 : MC m1) (h2 : MC m2) :
    MC (seqM m1 m2) := by
  intro cs n h
  obtain ⟨a, b, ha, hb, rfl⟩ := seqM_eq h
  obtain ⟨p1, s1, rfl, rfl⟩ := h1 cs a ha
  rw [dropBytes_append_exact] at hb
  obtain ⟨p2, s2, rfl, rfl⟩ := h2 s1 b hb
  exact ⟨p1 ++ p2, s2, by simp, by rw [byteLen_append]⟩

theorem altM_eq {ms : List (List Char → Option Nat)} {cs : List Char} {n : Nat}
    (h : altM ms cs = some n) : ∃ m ∈ ms, m cs = some n := by
  induction ms with
  | nil => cases h
  | cons m rest ih =>
    rw [altM] at h
    cases hm : m cs with
    | none =>
      rw [hm] at h
      obtain ⟨m', hmem, hm'⟩ := ih h
      exact ⟨m', List.mem_cons_of_mem m hmem, hm'⟩
    | some k =>
      rw [hm] at h
      cases h
      exact ⟨m, List.mem_cons_self m rest, hm⟩

theorem mc_altM {ms : List (List Char → Option Nat)}
    (h : ∀ m ∈ ms, MC m) : MC (altM ms) := by
  intro cs n hn
  obtain ⟨m, hmem, hm⟩ := altM_eq hn
  exact h m hmem cs n hm

theorem runAlts_eq {alts : List ((List Char → Option Nat) × ParseErrorMsg)}
    {cs : List Char} {n : Nat} {msg : ParseErrorMsg}
    (h : runAlts alts cs = some (n, msg)) :
    ∃ a ∈ alts, a.1 cs = some n := by
  induction alts with
  | nil => cases h
  | cons a rest ih =>
    rw [runAlts] at h
    cases hm : a.1 cs with
    | none =>
      rw [show (a = (a.1, a.2)) from rfl] at h
      simp only [hm] at h
      obtain ⟨a', hmem, ha'⟩ := ih h
      exact ⟨a', List.mem_cons_of_mem a hmem, ha'⟩
    | some k =>
      rw [show (a = (a.1, a.2)) from rfl] at h
      simp only [hm] at h
      cases h
      exact ⟨a, List.mem_cons_self a rest, hm⟩

theorem consumes_compose {cs : List Char} {a b : Nat} (h1 : Consumes cs a)
    (h2 : Consumes (dropBytes a cs) b) : Consumes cs (a + b) := by
  obtain ⟨p1, s1, rfl, rfl⟩ := h1
  rw [dropBytes_append_exact] at h2
  obtain ⟨p2, s2, rfl, rfl⟩ := h2
  exact ⟨p1 ++ p2, s2, by simp, by rw [byteLen_append]⟩

theorem mc_gkAlts : ∀ m ∈ gkAlts, MC m := by
  intro m hm
  simp only [gkAlts, List.mem_cons, List.not_mem_nil, or_false] at hm
  rcases hm with rfl | rfl | rfl | rfl
  · exact mc_seqM (mc_seqM (mc_litM _) (mc_many1M _)) (mc_litM _)
  · exact mc_seqM (mc_seqM (mc_litM _) (mc_many1M _)) (mc_litM _)
  · exact mc_seqM (mc_seqM (mc_litM _) (mc_many1M _)) (mc_litM _)
  · exact mc_seqM
      (mc_altM (by
        intro m hm
        simp only [List.mem_cons, List.not_mem_nil, or_false] at hm
        rcases hm with rfl | rfl | rfl <;> exact mc_litM _))
      (mc_charM _)

theorem mc_pAlts : ∀ m ∈ pAlts, MC m := by
  intro m hm
  simp only [pAlts, List.mem_cons, List.not_mem_nil, or_false] at hm
  rcases hm with rfl | rfl | rfl
  · exact mc_charM _
  · exact mc_seqM (mc_seqM (mc_litM _) (mc_many1M _)) (mc_litM _)
  · exact mc_seqM (mc_seqM (mc_litM _) (mc_many1M _)) (mc_litM _)

theorem mc_groupAlts : ∀ a ∈ groupAlts, MC a.1 := by
  intro a ha
  simp only [groupAlts, List.mem_cons, List.not_mem_nil, or_false] at ha
  rcases ha with rfl | rfl | rfl | rfl | rfl | rfl | rfl | rfl | rfl | rfl |
    rfl | rfl | rfl | rfl
  all_goals first
    | exact mc_litM _
    | exact mc_seqM (mc_seqM (mc_litM _) (mc_many1M _)) (mc_litM _)
    | exact mc_seqM (mc_seqM (mc_litM _) (mc_many0M _)) (mc_litM _)
    | exact mc_seqM
        (mc_seqM
          (mc_altM (by
            intro m hm
            simp only [List.mem_cons, List.not_mem_nil, or_false] at hm
            rcases hm with rfl | rfl <;> exact mc_litM _))
          (mc_many1M _))
        (mc_litM _)
    | exact mc_altM (by
        intro m hm
        simp only [List.mem_cons, List.not_mem_nil, or_false] at hm
        rcases hm with rfl | rfl <;> exact mc_litM _)

theorem mc_bsAlts : ∀ a ∈ bsAlts, MC a.1 := by
  intro a ha
  simp only [bsAlts, List.mem_cons, List.not_mem_nil, or_false] at ha
  rcases ha with rfl | rfl | rfl | rfl | rfl | rfl
  · exact mc_seqM
      (mc_seqM
        (mc_altM (by
          intro m hm
          simp only [List.mem_cons, List.not_mem_nil, or_false] at hm
          rcases hm with rfl | rfl <;> exact mc_litM _))
        (mc_many1M _))
      (mc_litM _)
  · exact mc_seqM (mc_seqM (mc_seqM (mc_seqM (mc_litM _) (mc_charM _))
      (mc_charM _)) (mc_charM _)) (mc_charM _)
  · exact mc_seqM (mc_seqM (mc_litM _) (mc_charM _)) (mc_charM _)
  · exact mc_seqM
      (mc_altM (by
        intro m hm
        simp only [List.mem_cons, List.not_mem_nil, or_false] at hm
        rcases hm with rfl | rfl <;> exact mc_litM _))
      (mc_altM mc_gkAlts)
  · exact mc_seqM
      (mc_altM (by
        intro m hm
        simp only [List.mem_cons, List.not_mem_nil, or_false] at hm
        rcases hm with rfl | rfl <;> exact mc_litM _))
      (mc_altM mc_pAlts)
  · exact mc_charM _

theorem parse_special_group_spec {cs : List Char} {n : Nat}
    {msg : ParseErrorMsg} (h : parse_special_group cs = some (n, msg)) :
    Consumes cs n ∧ 1 ≤ n := by
  rw [parse_special_group] at h
  cases h0 : litM ['(', '?'] cs with
  | none => rw [h0] at h; cases h
  | some l0 =>
    rw [h0] at h
    rcases Option.map_eq_some'.mp h with ⟨⟨n', msg'⟩, hrun, hpair⟩
    cases hpair
    obtain ⟨hl0, -⟩ := litM_eq h0
    obtain ⟨a, hmem, ha⟩ := runAlts_eq hrun
    have hc2 := mc_groupAlts a hmem _ _ ha
    refine ⟨consumes_compose (mc_litM _ _ _ h0) hc2, ?_⟩
    have : byteLen ['(', '?'] = 2 := by decide
    omega

theorem parse_backslash_spec {cs : List Char} {n : Nat}
    {msg : ParseErrorMsg} (h : parse_backslash cs = some (n, msg)) :
    Consumes cs n ∧ 1 ≤ n := by
  rw [parse_backslash] at h
  cases h0 : litM ['\\'] cs with
  | none => rw [h0] at h; cases h
  | some l0 =>
    rw [h0] at h
    rcases Option.map_eq_some'.mp h with ⟨⟨n', msg'⟩, hrun, hpair⟩
    cases hpair
    obtain ⟨hl0, -⟩ := litM_eq h0
    obtain ⟨a, hmem, ha⟩ := runAlts_eq hrun
    have hc2 := mc_bsAlts a hmem _ _ ha
    refine ⟨consumes_compose (mc_litM _ _ _ h0) hc2, ?_⟩
    have : byteLen ['\\'] = 1 := by decide
    omega

theorem codePointLen_spec {cs : List Char} {n : Nat}
    (h : codePointLen cs = some n) : Consumes cs n ∧ 1 ≤ n := by
  obtain ⟨a, b, ha, hb, rfl⟩ := seqM_eq h
  obtain ⟨hl, -⟩ := litM_eq ha
  refine ⟨mc_seqM (mc_litM _) (mc_many1M _) cs _ h, ?_⟩
  have : byteLen ['U', '+'] = 2 := by decide
  omega

theorem numberLen_spec {cs : List Char} {n : Nat}
    (h : numberLen cs = some n) : Consumes cs n ∧ 1 ≤ n := by
  obtain ⟨c, rest, rfl, -, rfl⟩ := many1M_eq h
  have := Char.utf8Size_pos c
  exact ⟨mc_many1M _ _ _ h, by omega⟩

theorem identLen_spec {cs : List Char} {n : Nat}
    (h : identLen cs = some n) : Consumes cs n ∧ 1 ≤ n := by
  obtain ⟨a, b, ha, hb, rfl⟩ := seqM_eq h
  obtain ⟨c, rest, rfl, -, rfl⟩ := charM_eq ha
  have := Char.utf8Size_pos c
  exact ⟨mc_seqM (mc_charM _) (mc_many0M _) _ _ h, by omega⟩

theorem findCharByte_decomp {t : Char} : ∀ {cs : List Char} {n : Nat},
    findCharByte t cs = some n → ∃ p s, cs = p ++ t :: s ∧ byteLen p = n := by
  intro cs
  induction cs with
  | nil => intro n h; cases h
  | cons c rest ih =>
    intro n h
    rw [findCharByte] at h
    split at h
    · cases h
      rename_i hc
      subst hc
      exact ⟨[], rest, rfl, rfl⟩
    · rcases Option.map_eq_some'.mp h with ⟨n', hn', rfl⟩
      obtain ⟨p, s, rfl, rfl⟩ := ih hn'
      exact ⟨c :: p, s, rfl, by rw [byteLen_cons]; omega⟩

theorem fuq_decomp : ∀ (k : Nat) (cs : List Char), cs.length ≤ k → ∀ n,
    find_unescaped_quote cs = some n →
    ∃ p s, cs = p ++ '"' :: s ∧ byteLen p = n := by
  intro k
  induction k with
  | zero =>
    intro cs hl n h
    have : cs = [] := List.length_eq_zero.mp (Nat.le_zero.mp hl)
    subst this
    cases h
  | succ k ih =>
    intro cs hl n h
    cases cs with
    | nil => cases h
    | cons c rest =>
      by_cases hq : c = '"'
      · subst hq
        have h' : (some 0 : Option Nat) = some n := by rw [← h]; rfl
        cases h'
        exact ⟨[], rest, rfl, rfl⟩
      · by_cases hb : c = '\\'
        · subst hb
          cases rest with
          | nil =>
            have h' : (none : Option Nat) = some n := by rw [← h]; rfl
            cases h'
          | cons c2 rest' =>
            have h' : (find_unescaped_quote rest').map (· + 1 + c2.utf8Size) =
                some n := by rw [← h]; rfl
            rcases Option.map_eq_some'.mp h' with ⟨n', hn', rfl⟩
            have hlen : rest'.length ≤ k := by
              simp only [List.length_cons] at hl
              omega
            obtain ⟨p, s, rfl, rfl⟩ := ih rest' hlen n' hn'
            refine ⟨'\\' :: c2 :: p, s, rfl, ?_⟩
            rw [byteLen_cons, byteLen_cons]
            have h1 : ('\\' : Char).utf8Size = 1 := by decide
            omega
        · have h' : (find_unescaped_quote rest).map (· + c.utf8Size) = some n := by
            rw [← h]
            simp [find_unescaped_quote, hq, hb]
          rcases Option.map_eq_some'.mp h' with ⟨n', hn', rfl⟩
          have hlen : rest.length ≤ k := by
            simp only [List.length_cons] at hl
            omega
          obtain ⟨p, s, rfl, rfl⟩ := ih rest hlen n' hn'
          exact ⟨c :: p, s, rfl, by rw [byteLen_cons]; omega⟩

theorem find_unescaped_quote_decomp {cs : List Char} {n : Nat}
    (h : find_unescaped_quote cs = some n) :
    ∃ p s, cs = p ++ '"' :: s ∧ byteLen p = n :=
  fuq_decomp cs.length cs le_rfl n h

theorem tokStep_consumes (c : Char) (rest : List Char) :
    1 ≤ (tokStep (c :: rest)).1 ∧ Consumes (c :: rest) (tokStep (c :: rest)).1 := by
  rw [tokStep]
  by_cases h1 : ['<', '%'].isPrefixOf (c :: rest) = true
  · rw [if_pos h1]; exact ⟨by norm_num, consumes_of_isPrefixOf h1⟩
  rw [if_neg h1]
  by_cases h2 : ['%', '>'].isPrefixOf (c :: rest) = true
  · rw [if_pos h2]; exact ⟨by norm_num, consumes_of_isPrefixOf h2⟩
  rw [if_neg h2]
  by_cases h3 : ['>', '>'].isPrefixOf (c :: rest) = true
  · rw [if_pos h3]; exact ⟨by norm_num, consumes_of_isPrefixOf h3⟩
  rw [if_neg h3]
  by_cases h4 : ['<', '<'].isPrefixOf (c :: rest) = true
  · rw [if_pos h4]; exact ⟨by norm_num, consumes_of_isPrefixOf h4⟩
  rw [if_neg h4]
  by_cases h5 : [':', ':'].isPrefixOf (c :: rest) = true
  · rw [if_pos h5]; exact ⟨by norm_num, consumes_of_isPrefixOf h5⟩
  rw [if_neg h5]
  by_cases h6 : c = '%'
  · rw [if_pos h6]; subst h6; exact ⟨le_refl 1, consumes_head _ _⟩
  rw [if_neg h6]
  by_cases h7 : c = '*'
  · rw [if_pos h7]; subst h7; exact ⟨le_refl 1, consumes_head _ _⟩
  rw [if_neg h7]
  by_cases h8 : c = '+'
  · rw [if_pos h8]; subst h8; exact ⟨le_refl 1, consumes_head _ _⟩
  rw [if_neg h8]
  by_cases h9 : c = '?'
  · rw [if_pos h9]; subst h9; exact ⟨le_refl 1, consumes_head _ _⟩
  rw [if_neg h9]
  by_cases h10 : c = '|'
  · rw [if_pos h10]; subst h10; exact ⟨le_refl 1, consumes_head _ _⟩
  rw [if_neg h10]
  by_cases h11 : c = ':'
  · rw [if_pos h11]; subst h11; exact ⟨le_refl 1, consumes_head _ _⟩
  rw [if_neg h11]
  by_cases h12 : c = ')'
  · rw [if_pos h12]; subst h12; exact ⟨le_refl 1, consumes_head _ _⟩
  rw [if_neg h12]
  by_cases h13 : c = '{'
  · rw [if_pos h13]; subst h13; exact ⟨le_refl 1, consumes_head _ _⟩
  rw [if_neg h13]
  by_cases h14 : c = '}'
  · rw [if_pos h14]; subst h14; exact ⟨le_refl 1, consumes_head _ _⟩
  rw [if_neg h14]
  by_cases h15 : c = ','
  · rw [if_pos h15]; subst h15; exact ⟨le_refl 1, consumes_head _ _⟩
  rw [if_neg h15]
  by_cases h16 : c = '!'
  · rw [if_pos h16]; subst h16; exact ⟨le_refl 1, consumes_head _ _⟩
  rw [if_neg h16]
  by_cases h17 : c = '['
  · rw [if_pos h17]; subst h17; exact ⟨le_refl 1, consumes_head _ _⟩
  rw [if_neg h17]
  by_cases h18 : c = '-'
  · rw [if_pos h18]; subst h18; exact ⟨le_refl 1, consumes_head _ _⟩
  rw [if_neg h18]
  by_cases h19 : c = ']'
  · rw [if_pos h19]; subst h19; exact ⟨le_refl 1, consumes_head _ _⟩
  rw [if_neg h19]
  by_cases h20 : c = '.'
  · rw [if_pos h20]; subst h20; exact ⟨le_refl 1, consumes_head _ _⟩
  rw [if_neg h20]
  by_cases h21 : c = ';'
  · rw [if_pos h21]; subst h21; exact ⟨le_refl 1, consumes_head _ _⟩
  rw [if_neg h21]
  by_cases h22 : c = '='
  · rw [if_pos h22]; subst h22; exact ⟨le_refl 1, consumes_head _ _⟩
  rw [if_neg h22]
  by_cases h23 : c = '\''
  · rw [if_pos h23]
    subst h23
    cases hf : findCharByte '\'' rest with
    | some len_inner =>
      obtain ⟨p, s, hrest, hlen⟩ := findCharByte_decomp hf
      refine ⟨?_, ⟨'\'' :: (p ++ ['\'']), s, ?_, ?_⟩⟩
      · show 1 ≤ len_inner + 2
        omega
      · rw [hrest]
        simp
      · show byteLen ('\'' :: (p ++ ['\''])) = len_inner + 2
        rw [byteLen_cons, byteLen_append, hlen]
        have hsz : ('\'' : Char).utf8Size = 1 := by decide
        have hl1 : byteLen ['\''] = 1 := by decide
        omega
    | none =>
      exact ⟨byteLen_pos (by simp), consumes_all _⟩
  rw [if_neg h23]
  by_cases h24 : c = '"'
  · rw [if_pos h24]
    subst h24
    cases hf : find_unescaped_quote rest with
    | some len_inner =>
      obtain ⟨p, s, hrest, hlen⟩ := find_unescaped_quote_decomp hf
      refine ⟨?_, ⟨'"' :: (p ++ ['"']), s, ?_, ?_⟩⟩
      · show 1 ≤ len_inner + 2
        omega
      · rw [hrest]
        simp
      · show byteLen ('"' :: (p ++ ['"'])) = len_inner + 2
        rw [byteLen_cons, byteLen_append, hlen]
        have hsz : ('"' : Char).utf8Size = 1 := by decide
        have hl1 : byteLen ['"'] = 1 := by decide
        omega
    | none =>
      exact ⟨byteLen_pos (by simp), consumes_all _⟩
  rw [if_neg h24]
  cases hcp : codePointLen (c :: rest) with
  | some len =>
    obtain ⟨hcon, hpos⟩ := codePointLen_spec hcp
    exact ⟨hpos, hcon⟩
  | none =>
    cases hnum : numberLen (c :: rest) with
    | some len =>
      obtain ⟨hcon, hpos⟩ := numberLen_spec hnum
      exact ⟨hpos, hcon⟩
    | none =>
      cases hid : identLen (c :: rest) with
      | some len =>
        obtain ⟨hcon, hpos⟩ := identLen_spec hid
        exact ⟨hpos, hcon⟩
      | none =>
        by_cases hc1 : c = '^'
        · rw [if_pos hc1]; subst hc1; exact ⟨le_refl 1, consumes_head _ _⟩
        rw [if_neg hc1]
        by_cases hc2 : c = '$'
        · rw [if_pos hc2]; subst hc2; exact ⟨le_refl 1, consumes_head _ _⟩
        rw [if_neg hc2]
        cases hsg : parse_special_group (c :: rest) with
        | some v =>
          obtain ⟨len, err⟩ := v
          obtain ⟨hcon, hpos⟩ := parse_special_group_spec hsg
          exact ⟨hpos, hcon⟩
        | none =>
          by_cases hc3 : c = '('
          · rw [if_pos hc3]; subst hc3; exact ⟨le_refl 1, consumes_head _ _⟩
          rw [if_neg hc3]
          cases hbs : parse_backslash (c :: rest) with
          | some v =>
            obtain ⟨len, err⟩ := v
            obtain ⟨hcon, hpos⟩ := parse_backslash_spec hbs
            exact ⟨hpos, hcon⟩
          | none =>
            exact ⟨Char.utf8Size_pos c, consumes_head c rest⟩

theorem skipComments_le : ∀ (k : Nat) (cs : List Char), cs.length ≤ k →
    (skipComments cs).length ≤ cs.length := by
  intro k
  induction k with
  | zero =>
    intro cs hl
    have h0 : cs = [] := List.length_eq_zero.mp (Nat.le_zero.mp hl)
    subst h0
    rw [skipComments]
    simp
  | succ k ih =>
    intro cs hl
    rw [skipComments]
    split
    · rename_i h
      rcases cs with _ | ⟨c, rest⟩
      · simp at h
      · have hc : c = '#' := by simpa using h
        subst hc
        have h1 : (('#' :: rest).dropWhile (· ≠ '\n')) = rest.dropWhile (· ≠ '\n') := by
          simp [List.dropWhile_cons]
        have h2 : (rest.dropWhile (· ≠ '\n')).length ≤ rest.length :=
          (List.dropWhile_sublist _).length_le
        have h3 : ((('#' :: rest).dropWhile (· ≠ '\n')).dropWhile
            Char.isWhitespace).length ≤ (rest.dropWhile (· ≠ '\n')).length := by
          rw [h1]
          exact (List.dropWhile_sublist _).length_le
        have h4 : ((('#' :: rest).dropWhile (· ≠ '\n')).dropWhile
            Char.isWhitespace).length ≤ k := by
          simp only [List.length_cons] at hl
          omega
        have h5 := ih _ h4
        simp only [List.length_cons]
        omega
    · exact le_rfl

theorem skipWs_length_le (cs : List Char) : (skipWs cs).length ≤ cs.length := by
  rw [skipWs]
  have h1 := skipComments_le (cs.dropWhile Char.isWhitespace).length _ le_rfl
  have h2 : (cs.dropWhile Char.isWhitespace).length ≤ cs.length :=
    (List.dropWhile_sublist _).length_le
  omega

theorem tokenizeLoop_chain : ∀ (fuel : Nat) (input : List Char) (off : Nat),
    input.length < fuel → SpanChain off input (tokenizeLoop fuel input off) := by
  intro fuel
  induction fuel with
  | zero => intro input off h; exact absurd h (Nat.not_lt_zero _)
  | succ fuel ih =>
    intro input off h
    rw [tokenizeLoop]
    cases htr : skipWs input with
    | nil => exact SpanChain.nil off input htr
    | cons c rest =>
      show SpanChain off input
        (((tokStep (c :: rest)).2, off + (byteLen input - byteLen (c :: rest)),
            off + (byteLen input - byteLen (c :: rest)) + (tokStep (c :: rest)).1) ::
          tokenizeLoop fuel (dropBytes (tokStep (c :: rest)).1 (c :: rest))
            (off + (byteLen input - byteLen (c :: rest)) + (tokStep (c :: rest)).1))
      obtain ⟨hpos, hcon⟩ := tokStep_consumes c rest
      obtain ⟨pre, suf, hsplit, hlen⟩ := hcon
      cases hts : tokStep (c :: rest) with
      | mk len token =>
        rw [hts] at hpos hlen
        simp only at hpos hlen
        have hprene : pre ≠ [] := by
          intro h0
          subst h0
          simp [byteLen] at hlen
          omega
        have hsk : byteLen input - byteLen (c :: rest) = skippedBytes input := by
          rw [skippedBytes, htr]
        have hdrop : dropBytes len (c :: rest) = suf := by
          rw [hsplit, ← hlen, dropBytes_append_exact]
        rw [hsk, hdrop]
        simp only
        have hsufl : suf.length < fuel := by
          have hlel := skipWs_length_le input
          rw [htr] at hlel
          have hsl : (c :: rest).length = pre.length + suf.length := by
            rw [hsplit]
            simp
          have hp1 : 1 ≤ pre.length := List.length_pos.mpr hprene
          simp only [List.length_cons] at hlel hsl
          omega
        exact SpanChain.cons off input token len _ pre suf (htr.trans hsplit)
          hprene hlen (htr ▸ hts) (ih suf (off + skippedBytes input + len) hsufl)

theorem spanChain_forall_pos {off : Nat} {cs : List Char}
    {ts : List (Token × Nat × Nat)} (h : SpanChain off cs ts) :
    ∀ t ∈ ts, t.2.1 < t.2.2 := by
  induction h with
  | nil => simp
  | cons off cs tok len ts pre suf hsplit hpre hlen hts htail ih =>
    intro t ht
    rcases List.mem_cons.mp ht with rfl | hmem
    · show off + skippedBytes cs < off + skippedBytes cs + len
      have h1 : 1 ≤ byteLen pre := byteLen_pos hpre
      omega
    · exact ih t hmem

theorem spanChain_head_start {off : Nat} {cs : List Char}
    {ts : List (Token × Nat × Nat)} (h : SpanChain off cs ts) :
    ∀ t ∈ ts.head?, off ≤ t.2.1 := by
  cases h with
  | nil => simp
  | cons off cs tok len ts pre suf hsplit hpre hlen hts htail =>
    intro t ht
    simp only [List.head?_cons, Option.mem_some_iff] at ht
    subst ht
    exact Nat.le_add_right _ _

theorem spanChain_chain' {off : Nat} {cs : List Char}
    {ts : List (Token × Nat × Nat)} (h : SpanChain off cs ts) :
    ts.Chain' (fun a b => a.2.2 ≤ b.2.1) := by
  induction h with
  | nil => exact List.chain'_nil
  | cons off cs tok len ts pre suf hsplit hpre hlen hts htail ih =>
    rw [List.chain'_cons']
    exact ⟨fun b hb => spanChain_head_start htail b hb, ih⟩

/-- **C9.** For every input, the token list returned by `tokenize` covers
the input without gaps or overlaps apart from skipped whitespace and `#`
line comments: each emitted token carries the span `[start, start+consumed)`
of the bytes it consumed (the `pre`/`suf` decomposition of `SpanChain`),
spans appear in strictly increasing order, and each token's start equals
the previous token's end plus the bytes skipped as whitespace or comments
between them (`skippedBytes`). -/
theorem tokenize_spans_chain (cs : List Char) :
    SpanChain 0 cs (tokenize cs) ∧
    (tokenize cs).Chain' (fun a b => a.2.2 ≤ b.2.1) ∧
    ∀ t ∈ tokenize cs, t.2.1 < t.2.2 := by
  have h : SpanChain 0 cs (tokenize cs) := by
    rw [tokenize]
    exact tokenizeLoop_chain (cs.length + 1) cs 0 (by omega)
  exact ⟨h, spanChain_chain' h, spanChain_forall_pos h⟩

end Pomsky
